import Mathlib

/-!
Shallow embedding of the core analysis logic of `src/csv_analyzer.py`
(class `CSVAnalyzer`): connection discovery (`find_connections`) and
per-column outlier detection (`get_outliers`).

Modelling conventions:
* A loaded dataset is represented by its numeric columns (aligned lists of
  `Option ℚ`, `none` standing for a missing entry) and its categorical
  columns (aligned lists of `Option String`).  Column classification is done
  by the external loader (`load_data`), so the embedding starts from an
  already classified dataset, exactly like the analysis methods do.
* Floating point arithmetic is idealised over `ℚ`/`ℝ`.  Quantities that the
  source computes as float NaN (Pearson coefficient of a zero-variance pair,
  sample standard deviation of a singleton group, variance ratio with no
  valid group standard deviation) are represented as `Option.none`; the
  source's `NaN > threshold` comparisons are `false`, which corresponds to
  the `none` case emitting nothing, and pandas `max`/`min` skip NaN, which
  corresponds to folding only over the `some` values.
* Python's `sorted(..., key=strength, reverse=True)` is a stable descending
  sort; it is embedded as an insertion sort of the index-annotated
  (discovery-ordered) list under the total order "larger strength first,
  ties broken by discovery index".
-/

namespace AutoCSV

/-- A numeric column: its name and its row-aligned values (`none` = missing). -/
structure NumericColumn where
  name : String
  values : List (Option ℚ)
deriving DecidableEq

/-- A categorical column: its name and its row-aligned labels (`none` = missing). -/
structure CategoricalColumn where
  name : String
  values : List (Option String)
deriving DecidableEq

/-- A loaded dataset after column classification, as used by the analysis
methods: the numeric columns (in `self.numeric_columns` order) and the
categorical columns (in `self.categorical_columns` order). -/
structure Dataset where
  numerics : List NumericColumn
  categoricals : List CategoricalColumn
deriving DecidableEq

/-- Names of the numeric columns (`self.numeric_columns`). -/
def numericNames (d : Dataset) : List String :=
  d.numerics.map NumericColumn.name

/-- Names of all columns of the dataset (numeric and categorical columns
partition the column set). -/
def allNames (d : Dataset) : List String :=
  d.numerics.map NumericColumn.name ++ d.categoricals.map CategoricalColumn.name

/-- Mean of a list of rationals (`Series.mean`); `0` on the empty list, which
is only ever used in contexts where the source's NaN would be discarded. -/
def meanQ (l : List ℚ) : ℚ := l.sum / l.length

/-- Sum of squared deviations from the mean. -/
def ssQ (l : List ℚ) : ℚ := (l.map (fun x => (x - meanQ l) ^ 2)).sum

/-- Sample variance with `ddof = 1` (the pandas default for `std`). -/
def sampleVarQ (l : List ℚ) : ℚ := ssQ l / ((l.length : ℚ) - 1)

/-- Sample standard deviation (`Series.std`, `ddof = 1`) as a real number. -/
noncomputable def stdR (l : List ℚ) : ℝ := Real.sqrt (sampleVarQ l)

/-- Rows where both columns have a present value, as pairs
(pairwise-complete observations, as used by `DataFrame.corr`). -/
def nonMissingPairs (xs ys : List (Option ℚ)) : List (ℚ × ℚ) :=
  (xs.zip ys).filterMap (fun p =>
    match p.1, p.2 with
    | some a, some b => some (a, b)
    | _, _ => none)

/-- Sum of products of deviations over paired rows. -/
def crossQ (p : List (ℚ × ℚ)) : ℚ :=
  (p.map (fun z =>
    (z.1 - meanQ (p.map Prod.fst)) * (z.2 - meanQ (p.map Prod.snd)))).sum

/-- Pearson correlation coefficient of two columns over their jointly
non-missing rows (`corr_matrix.loc[col1, col2]`).  When either column has
zero variance over those rows (which subsumes fewer than two joint rows) the
coefficient is the source's NaN, represented as `none`. -/
noncomputable def pearsonOpt (xs ys : List (Option ℚ)) : Option ℝ :=
  if ssQ ((nonMissingPairs xs ys).map Prod.fst) = 0 ∨
     ssQ ((nonMissingPairs xs ys).map Prod.snd) = 0 then none
  else some ((crossQ (nonMissingPairs xs ys) : ℝ) /
    (Real.sqrt (ssQ ((nonMissingPairs xs ys).map Prod.fst)) *
     Real.sqrt (ssQ ((nonMissingPairs xs ys).map Prod.snd))))

/-- Per-group summary produced by `groupby(cat_col)[num_col].agg(['mean', 'std', 'count'])`;
`none` stands for the NaN entries (empty group mean, `ddof = 1` std of a
group with fewer than two values). -/
structure GroupStat where
  mean : Option ℚ
  std : Option ℝ
  count : ℕ

/-- A discovered connection record, as appended to the `connections` list. -/
inductive Connection where
  | correlation (column1 column2 : String) (strength : ℝ) (direction : String) (value : ℝ)
  | categorical (categoricalColumn numericColumn : String) (strength : ℝ)
      (details : List (String × GroupStat))

/-- The `strength` field of a connection, the sort key of the final list. -/
def Connection.strength : Connection → ℝ
  | .correlation _ _ s _ _ => s
  | .categorical _ _ s _ => s

/-- The correlation connection produced for an ordered pair of numeric
columns, if any: emitted exactly when the coefficient is defined and its
absolute value exceeds the `0.3` threshold. -/
noncomputable def corrConnOpt (c1 c2 : NumericColumn) : Option Connection :=
  match pearsonOpt c1.values c2.values with
  | none => none
  | some r =>
    if 3 / 10 < |r| then
      some (.correlation c1.name c2.name |r|
        (if 0 < r then "positive" else "negative") r)
    else none

/-- The correlation connection for the index pair `(i, j)` of
`d.numerics`, if both indices are in range and the pair is emitted. -/
noncomputable def corrConnPair (d : Dataset) (i j : ℕ) : Option Connection :=
  match d.numerics.get? i, d.numerics.get? j with
  | some c1, some c2 => corrConnOpt c1 c2
  | _, _ => none

/-- All correlation connections, in discovery order: the nested loop
`for i, col1 in enumerate(...)` / `for col2 in numeric_columns[i+1:]`,
guarded by `len(self.numeric_columns) > 1`. -/
noncomputable def corrConnections (d : Dataset) : List Connection :=
  if 1 < d.numerics.length then
    (List.range d.numerics.length).flatMap (fun i =>
      (List.range d.numerics.length).filterMap (fun j =>
        if i < j then corrConnPair d i j else none))
  else []

/-- The distinct non-missing labels of a categorical column: the group keys
of `groupby(cat_col)` (pandas sorts group keys). -/
def groupLabels (cvals : List (Option String)) : List String :=
  List.insertionSort (· ≤ ·) (cvals.filterMap id).dedup

/-- The non-missing numeric values of the group with the given label:
rows where the categorical column carries `label` and the numeric column is
present. -/
def groupVals (cvals : List (Option String)) (nvals : List (Option ℚ)) (label : String) :
    List ℚ :=
  (cvals.zip nvals).filterMap (fun p =>
    match p.1, p.2 with
    | some lab, some x => if lab = label then some x else none
    | _, _ => none)

/-- The `std` aggregate of one group: defined only for at least two values
(`ddof = 1`); a singleton or empty group yields the source's NaN (`none`). -/
noncomputable def stdOptOfGroup (g : List ℚ) : Option ℝ :=
  if 2 ≤ g.length then some (stdR g) else none

/-- The `grouped.to_dict()` payload stored in the `details` field. -/
noncomputable def groupStatsOf (cvals : List (Option String)) (nvals : List (Option ℚ)) :
    List (String × GroupStat) :=
  (groupLabels cvals).map (fun lab =>
    (lab,
      { mean := if 1 ≤ (groupVals cvals nvals lab).length
          then some (meanQ (groupVals cvals nvals lab)) else none
        std := stdOptOfGroup (groupVals cvals nvals lab)
        count := (groupVals cvals nvals lab).length }))

/-- The defined (non-NaN) group standard deviations, one per group that has
at least two values; pandas `max`/`min` skip the NaN entries, so these are
the values those aggregations range over. -/
noncomputable def validStds (cvals : List (Option String)) (nvals : List (Option ℚ)) :
    List ℝ :=
  (groupLabels cvals).filterMap (fun lab => stdOptOfGroup (groupVals cvals nvals lab))

/-- `variance_ratio = grouped['std'].max() / (grouped['std'].min() + 1e-10)`;
`none` when every group std is NaN (then the ratio itself is NaN). -/
noncomputable def ratioOpt (cvals : List (Option String)) (nvals : List (Option ℚ)) :
    Option ℝ :=
  match (validStds cvals nvals).maximum, (validStds cvals nvals).minimum with
  | some M, some m => some (M / (m + 1 / 10000000000))
  | _, _ => none

/-- The categorical-influence connection produced for one
(categorical, numeric) column pair, if any: requires more than one group
(`len(grouped) > 1`) and `variance_ratio > 2`; its strength is
`min(variance_ratio / 10, 1.0)`. -/
noncomputable def catConnOpt (c : CategoricalColumn) (n : NumericColumn) :
    Option Connection :=
  if 1 < (groupLabels c.values).length then
    match ratioOpt c.values n.values with
    | some ρ =>
      if 2 < ρ then
        some (.categorical c.name n.name (min (ρ / 10) 1) (groupStatsOf c.values n.values))
      else none
    | none => none
  else none

/-- All categorical-influence connections, in discovery order:
`for cat_col in categorical_columns: for num_col in numeric_columns`. -/
noncomputable def catConnections (d : Dataset) : List Connection :=
  d.categoricals.flatMap (fun c => d.numerics.filterMap (fun n => catConnOpt c n))

/-- The `connections` list right before the final sort: correlations first,
then categorical influences, each in discovery order. -/
noncomputable def discoveredConnections (d : Dataset) : List Connection :=
  corrConnections d ++ catConnections d

/-- The total preorder realising Python's stable descending sort on the
index-annotated connection list: larger strength first, ties broken by the
discovery index. -/
def rankLE (a b : ℕ × Connection) : Prop :=
  Connection.strength b.2 < Connection.strength a.2 ∨
    (Connection.strength a.2 = Connection.strength b.2 ∧ a.1 ≤ b.1)

noncomputable instance : DecidableRel rankLE := fun a b =>
  inferInstanceAs (Decidable (_ ∨ _ ∧ _))

instance : IsTotal (ℕ × Connection) rankLE where
  total a b := by
    rcases lt_trichotomy (Connection.strength a.2) (Connection.strength b.2) with h | h | h
    · exact Or.inr (Or.inl h)
    · rcases le_total a.1 b.1 with hi | hi
      · exact Or.inl (Or.inr ⟨h, hi⟩)
      · exact Or.inr (Or.inr ⟨h.symm, hi⟩)
    · exact Or.inl (Or.inl h)

instance : IsTrans (ℕ × Connection) rankLE where
  trans a b c hab hbc := by
    rcases hab with h1 | ⟨e1, i1⟩ <;> rcases hbc with h2 | ⟨e2, i2⟩
    · exact Or.inl (h2.trans h1)
    · exact Or.inl (e2 ▸ h1)
    · exact Or.inl (e1.symm ▸ h2)
    · exact Or.inr ⟨e1.trans e2, i1.trans i2⟩

/-- The sorted, index-annotated connection list:
`sorted(connections, key=lambda x: x['strength'], reverse=True)` with the
discovery index kept alongside each record. -/
noncomputable def ranked (d : Dataset) : List (ℕ × Connection) :=
  List.insertionSort rankLE (discoveredConnections d).enum

/-- The value returned by `find_connections`. -/
noncomputable def find_connections (d : Dataset) : List Connection :=
  (ranked d).map Prod.snd

/-- The error raised by `get_outliers` for a non-numeric or unknown column
(`ValueError(f"Column '{column}' is not numeric")`). -/
inductive AnalyzerError where
  | invalidColumn (msg : String)
deriving DecidableEq

/-- `Series.quantile(q)` with the default linear interpolation over the
sorted non-missing values. -/
def quantile (l : List ℚ) (q : ℚ) : ℚ :=
  let s := List.insertionSort (· ≤ ·) l
  let h : ℚ := q * ((l.length : ℚ) - 1)
  let i : ℕ := (⌊h⌋).toNat
  s.getD i 0 + (h - (i : ℚ)) * (s.getD (i + 1) 0 - s.getD i 0)

/-- The IQR branch of `get_outliers`: the values strictly outside
`[Q1 - 1.5*IQR, Q3 + 1.5*IQR]`, in original relative order. -/
def iqrOutliers (l : List ℚ) : List ℚ :=
  l.filter (fun x => decide
    (x < quantile l (1 / 4) - 3 / 2 * (quantile l (3 / 4) - quantile l (1 / 4)) ∨
     quantile l (3 / 4) + 3 / 2 * (quantile l (3 / 4) - quantile l (1 / 4)) < x))

/-- The z-score branch of `get_outliers`: the values whose absolute z-score
`abs((x - mean) / std)` exceeds 3.  When `std = 0` the source's division
yields NaN (every jointly defined deviation is then 0), so no value passes;
the embedding's division by zero likewise selects nothing. -/
noncomputable def zscoreOutliers (l : List ℚ) : List ℚ :=
  l.filter (fun x => decide (3 < |((x : ℝ) - (meanQ l : ℝ)) / stdR l|))

/-- The non-missing values of the named numeric column
(`self.data[column].dropna()`); `[]` when the column is not numeric. -/
def numericValues (d : Dataset) (column : String) : List ℚ :=
  match d.numerics.find? (fun c => c.name == column) with
  | some c => c.values.filterMap id
  | none => []

/-- `get_outliers(column, method)`: raises for a column that is not in
`self.numeric_columns`, otherwise dispatches on the method string, with an
empty result for an unrecognized method. -/
noncomputable def get_outliers (d : Dataset) (column : String) (method : String) :
    Except AnalyzerError (List ℚ) :=
  match d.numerics.find? (fun c => c.name == column) with
  | none => .error (.invalidColumn ("Column '" ++ column ++ "' is not numeric"))
  | some c =>
    if method = "iqr" then .ok (iqrOutliers (c.values.filterMap id))
    else if method = "zscore" then .ok (zscoreOutliers (c.values.filterMap id))
    else .ok []

/-- Dataset with the single numeric column `[1, 2, 3, 4, 100]` from the
IQR scenario of the specification. -/
def iqrExample : Dataset := ⟨[⟨"a", [some 1, some 2, some 3, some 4, some 100]⟩], []⟩

/-- Dataset with the single constant numeric column `[5, 5, 5, 5]` from the
z-score zero-variance scenario of the specification. -/
def constExample : Dataset := ⟨[⟨"b", [some 5, some 5, some 5, some 5]⟩], []⟩

/-- Numeric column `x` of the correlated example. -/
def xColumn : NumericColumn := ⟨"x", [some 0, some 0, some 3, some 3]⟩

/-- Numeric column `y = 2 * x` of the correlated example. -/
def yColumn : NumericColumn := ⟨"y", [some 0, some 0, some 6, some 6]⟩

/-- Dataset with two perfectly correlated numeric columns. -/
def corrExample : Dataset := ⟨[xColumn, yColumn], []⟩

/-- A constant numeric column. -/
def uColumn : NumericColumn := ⟨"u", [some 5, some 5, some 5]⟩

/-- A varying numeric column. -/
def vColumn : NumericColumn := ⟨"v", [some 1, some 2, some 3]⟩

/-- Dataset with one constant numeric column next to a varying one. -/
def degenerateExample : Dataset := ⟨[uColumn, vColumn], []⟩

/-- Categorical column with one spread-out and one constant group. -/
def gColumn : CategoricalColumn := ⟨"g", [some "hi", some "hi", some "lo", some "lo"]⟩

/-- Numeric column with group `hi = [0, 100]` and group `lo = [7, 7]`. -/
def nColumn : NumericColumn := ⟨"n", [some 0, some 100, some 7, some 7]⟩

/-- Dataset with a two-label categorical column whose groups have very
different spreads over the numeric column. -/
def catExample : Dataset := ⟨[nColumn], [gColumn]⟩

/-- Categorical column inducing only singleton groups. -/
def pColumn : CategoricalColumn := ⟨"p", [some "a", some "b"]⟩

/-- Numeric column, one value per group of `pColumn`. -/
def mColumn : NumericColumn := ⟨"m", [some 1, some 9]⟩

/-- Dataset whose categorical column has two labels but only singleton
groups over the numeric column. -/
def singletonGroupsExample : Dataset := ⟨[mColumn], [pColumn]⟩

/-- Categorical column with two labels where the numeric value is missing
for the second label. -/
def qColumn : CategoricalColumn := ⟨"q", [some "a", some "b"]⟩

/-- Numeric column with a missing entry aligned to label `b`. -/
def wColumn : NumericColumn := ⟨"w", [some 3, none]⟩

/-- Dataset in which only one category group contains a numeric value. -/
def sparseExample : Dataset := ⟨[wColumn], [qColumn]⟩

/-! ### The final list is a stable descending reordering of the discovered list -/

theorem ranked_sorted (d : Dataset) : List.Sorted rankLE (ranked d) :=
  List.sorted_insertionSort rankLE _

theorem ranked_perm (d : Dataset) : (ranked d).Perm (discoveredConnections d).enum :=
  List.perm_insertionSort rankLE _

theorem find_connections_perm (d : Dataset) :
    (find_connections d).Perm (discoveredConnections d) := by
  have h := (ranked_perm d).map Prod.snd
  rwa [List.enum_map_snd] at h

theorem mem_find_connections {d : Dataset} {c : Connection} :
    c ∈ find_connections d ↔ c ∈ discoveredConnections d :=
  (find_connections_perm d).mem_iff

/-! ### Membership characterisations for the discovery phase -/

theorem corrConnPair_eq_some {d : Dataset} {i j : ℕ} {conn : Connection} :
    corrConnPair d i j = some conn ↔
      ∃ c1 c2, d.numerics.get? i = some c1 ∧ d.numerics.get? j = some c2 ∧
        corrConnOpt c1 c2 = some conn := by
  unfold corrConnPair
  rcases h1 : d.numerics.get? i with _ | c1 <;>
    rcases h2 : d.numerics.get? j with _ | c2 <;> simp [h1, h2]

theorem mem_corrConnections {d : Dataset} {conn : Connection} :
    conn ∈ corrConnections d ↔ ∃ i j, i < j ∧ corrConnPair d i j = some conn := by
  unfold corrConnections
  split
  case isTrue h =>
    simp only [List.mem_flatMap, List.mem_filterMap, List.mem_range]
    constructor
    · rintro ⟨i, _, j, _, hif⟩
      by_cases hij : i < j
      · rw [if_pos hij] at hif
        exact ⟨i, j, hij, hif⟩
      · rw [if_neg hij] at hif
        cases hif
    · rintro ⟨i, j, hij, hpair⟩
      obtain ⟨c1, c2, h1, h2, _⟩ := corrConnPair_eq_some.mp hpair
      have hj : j < d.numerics.length := (List.get?_eq_some.mp h2).1
      exact ⟨i, lt_trans hij hj, j, hj, by rw [if_pos hij]; exact hpair⟩
  case isFalse h =>
    simp only [List.not_mem_nil, false_iff]
    rintro ⟨i, j, hij, hpair⟩
    obtain ⟨c1, c2, h1, h2, _⟩ := corrConnPair_eq_some.mp hpair
    have hj : j < d.numerics.length := (List.get?_eq_some.mp h2).1
    omega

theorem corrConnOpt_eq_some {c1 c2 : NumericColumn} {conn : Connection} :
    corrConnOpt c1 c2 = some conn ↔
      ∃ r, pearsonOpt c1.values c2.values = some r ∧ 3 / 10 < |r| ∧
        conn = .correlation c1.name c2.name |r|
          (if 0 < r then "positive" else "negative") r := by
  unfold corrConnOpt
  rcases h : pearsonOpt c1.values c2.values with _ | r
  · simp
  · simp only [Option.some.injEq]
    constructor
    · intro hif
      split at hif
      case isTrue ht => exact ⟨r, rfl, ht, (Option.some.injEq _ _).mp hif |>.symm⟩
      case isFalse => cases hif
    · rintro ⟨r', hr', hth, hconn⟩
      obtain rfl : r = r' := hr'
      rw [if_pos hth, hconn]

theorem mem_catConnections {d : Dataset} {conn : Connection} :
    conn ∈ catConnections d ↔
      ∃ c ∈ d.categoricals, ∃ n ∈ d.numerics, catConnOpt c n = some conn := by
  unfold catConnections
  simp [List.mem_flatMap, List.mem_filterMap]

theorem catConnOpt_eq_some {c : CategoricalColumn} {n : NumericColumn} {conn : Connection} :
    catConnOpt c n = some conn ↔
      1 < (groupLabels c.values).length ∧
      ∃ ρ, ratioOpt c.values n.values = some ρ ∧ 2 < ρ ∧
        conn = .categorical c.name n.name (min (ρ / 10) 1)
          (groupStatsOf c.values n.values) := by
  unfold catConnOpt
  split
  case isTrue hlen =>
    rcases hr : ratioOpt c.values n.values with _ | ρ
    · simp [hlen]
    · simp only [hlen, true_and, Option.some.injEq]
      constructor
      · intro hif
        split at hif
        case isTrue ht => exact ⟨ρ, rfl, ht, (Option.some.injEq _ _).mp hif |>.symm⟩
        case isFalse => cases hif
      · rintro ⟨ρ', hρ', hth, hconn⟩
        obtain rfl : ρ = ρ' := hρ'
        rw [if_pos hth, hconn]
  case isFalse hlen =>
    simp [hlen]

/-! ### Facts about the variance-ratio computation -/

theorem stdR_nonneg (l : List ℚ) : 0 ≤ stdR l := Real.sqrt_nonneg _

theorem validStds_nonneg {cvals : List (Option String)} {nvals : List (Option ℚ)} {s : ℝ}
    (hs : s ∈ validStds cvals nvals) : 0 ≤ s := by
  unfold validStds at hs
  obtain ⟨lab, _, hlab⟩ := List.mem_filterMap.mp hs
  unfold stdOptOfGroup at hlab
  split at hlab
  · obtain rfl := (Option.some.injEq _ _).mp hlab
    exact stdR_nonneg _
  · cases hlab

theorem stdOptOfGroup_of_le {g : List ℚ} (h : 2 ≤ g.length) :
    stdOptOfGroup g = some (stdR g) := if_pos h

theorem stdOptOfGroup_of_lt {g : List ℚ} (h : ¬2 ≤ g.length) :
    stdOptOfGroup g = none := if_neg h

theorem validStds_length_eq (cvals : List (Option String)) (nvals : List (Option ℚ)) :
    (validStds cvals nvals).length =
      ((groupLabels cvals).filter
        (fun lab => decide (2 ≤ (groupVals cvals nvals lab).length))).length := by
  unfold validStds
  generalize groupLabels cvals = labels
  induction labels with
  | nil => rfl
  | cons a t ih =>
    by_cases h : 2 ≤ (groupVals cvals nvals a).length
    · rw [List.filterMap_cons, List.filter_cons, stdOptOfGroup_of_le h]
      simp [h, ih]
    · rw [List.filterMap_cons, List.filter_cons, stdOptOfGroup_of_lt h]
      simp [h, ih]

theorem filter_two_le_length_le (cvals : List (Option String)) (nvals : List (Option ℚ)) :
    ((groupLabels cvals).filter
        (fun lab => decide (2 ≤ (groupVals cvals nvals lab).length))).length ≤
      ((groupLabels cvals).filter
        (fun lab => decide (1 ≤ (groupVals cvals nvals lab).length))).length := by
  rw [← List.countP_eq_length_filter, ← List.countP_eq_length_filter]
  exact List.countP_mono_left (fun lab _ h => by
    simp only [decide_eq_true_eq] at h ⊢
    omega)

theorem ratioOpt_of_subsingleton {cvals : List (Option String)} {nvals : List (Option ℚ)}
    (h : (validStds cvals nvals).length ≤ 1) :
    ratioOpt cvals nvals = none ∨
      ∃ ρ, ratioOpt cvals nvals = some ρ ∧ ρ < 1 := by
  unfold ratioOpt
  rcases hl : validStds cvals nvals with _ | ⟨s, t⟩
  · left
    rfl
  · have ht : t = [] := by
      rw [hl] at h
      simpa using h
    subst ht
    right
    have hs : 0 ≤ s := validStds_nonneg (by rw [hl]; exact List.mem_singleton_self s)
    have hpos : (0 : ℝ) < s + 1 / 10000000000 :=
      add_pos_of_nonneg_of_pos hs (by norm_num)
    refine ⟨s / (s + 1 / 10000000000), ?_, ?_⟩
    · rw [List.maximum_singleton, List.minimum_singleton]
    · exact (div_lt_one hpos).mpr (by linarith)

theorem two_le_validStds {cvals : List (Option String)} {nvals : List (Option ℚ)} {ρ : ℝ}
    (hρ : ratioOpt cvals nvals = some ρ) (h2 : 2 < ρ) :
    2 ≤ (validStds cvals nvals).length := by
  by_contra h
  rcases @ratioOpt_of_subsingleton cvals nvals (by omega) with hnone | ⟨ρ', hsome, hlt⟩
  · rw [hnone] at hρ
    cases hρ
  · rw [hsome] at hρ
    obtain rfl := (Option.some.injEq _ _).mp hρ
    linarith

theorem one_lt_labels_of_ratio {cvals : List (Option String)} {nvals : List (Option ℚ)} {ρ : ℝ}
    (hρ : ratioOpt cvals nvals = some ρ) (h2 : 2 < ρ) :
    1 < (groupLabels cvals).length := by
  have h2v : 2 ≤ (validStds cvals nvals).length := two_le_validStds hρ h2
  have hle : (validStds cvals nvals).length ≤ (groupLabels cvals).length := by
    unfold validStds
    exact List.length_filterMap_le _ _
  omega

/-! ### Column lookup in `get_outliers` -/

theorem find?_name_eq_none_iff {d : Dataset} {col : String} :
    d.numerics.find? (fun c => c.name == col) = none ↔ col ∉ numericNames d := by
  rw [List.find?_eq_none]
  unfold numericNames
  simp

theorem find?_mem_names {d : Dataset} {col : String} (h : col ∈ numericNames d) :
    ∃ c, d.numerics.find? (fun c => c.name == col) = some c ∧ c ∈ d.numerics ∧
      c.name = col ∧ numericValues d col = c.values.filterMap id := by
  have hsome : (d.numerics.find? (fun c => c.name == col)).isSome := by
    refine List.find?_isSome.mpr ?_
    obtain ⟨c, hc, hname⟩ := List.mem_map.mp h
    exact ⟨c, hc, by simp [hname]⟩
  obtain ⟨c, hc⟩ := Option.isSome_iff_exists.mp hsome
  refine ⟨c, hc, List.mem_of_find?_eq_some hc, by simpa using List.find?_some hc, ?_⟩
  unfold numericValues
  rw [hc]

theorem get_outliers_not_numeric {d : Dataset} {col m : String} (h : col ∉ numericNames d) :
    get_outliers d col m =
      .error (.invalidColumn ("Column '" ++ col ++ "' is not numeric")) := by
  unfold get_outliers
  rw [find?_name_eq_none_iff.mpr h]

theorem get_outliers_iqr {d : Dataset} {col : String} (h : col ∈ numericNames d) :
    get_outliers d col "iqr" = .ok (iqrOutliers (numericValues d col)) := by
  obtain ⟨c, hc, _, _, hvals⟩ := find?_mem_names h
  unfold get_outliers
  rw [hc]
  simp [hvals]

theorem get_outliers_zscore {d : Dataset} {col : String} (h : col ∈ numericNames d) :
    get_outliers d col "zscore" = .ok (zscoreOutliers (numericValues d col)) := by
  obtain ⟨c, hc, _, _, hvals⟩ := find?_mem_names h
  unfold get_outliers
  rw [hc]
  simp [hvals]

theorem get_outliers_unknown {d : Dataset} {col m : String} (h : col ∈ numericNames d)
    (h1 : m ≠ "iqr") (h2 : m ≠ "zscore") : get_outliers d col m = .ok [] := by
  obtain ⟨c, hc, _, _, _⟩ := find?_mem_names h
  unfold get_outliers
  rw [hc]
  simp [h1, h2]

/-! ### Identifying a connection's source pair under distinct column names -/

theorem get?_name_inj {l : List NumericColumn} (hnd : (l.map NumericColumn.name).Nodup)
    {i j : ℕ} {ci cj : NumericColumn} (hi : l.get? i = some ci) (hj : l.get? j = some cj)
    (hname : ci.name = cj.name) : i = j := by
  have hi' : (l.map NumericColumn.name).get? i = some ci.name := by
    rw [List.get?_map, hi]
    rfl
  have hj' : (l.map NumericColumn.name).get? j = some cj.name := by
    rw [List.get?_map, hj]
    rfl
  exact List.get?_inj (List.get?_eq_some.mp hi').1 hnd (by rw [hi', hj', hname])

theorem pearsonOpt_eq_none_of {xs ys : List (Option ℚ)}
    (hz : ssQ ((nonMissingPairs xs ys).map Prod.fst) = 0 ∨
          ssQ ((nonMissingPairs xs ys).map Prod.snd) = 0) :
    pearsonOpt xs ys = none := by
  unfold pearsonOpt
  rw [if_pos hz]

/-- Every correlation record in the output comes from an in-order pair of
numeric columns whose Pearson coefficient is defined, above the threshold
in absolute value, and determines all the record's fields. -/
theorem correlation_mem_elim {d : Dataset} {a b : String} {s : ℝ} {dir : String} {v : ℝ}
    (hmem : Connection.correlation a b s dir v ∈ find_connections d) :
    ∃ i j c1 c2 r, i < j ∧ d.numerics.get? i = some c1 ∧ d.numerics.get? j = some c2 ∧
      a = c1.name ∧ b = c2.name ∧ pearsonOpt c1.values c2.values = some r ∧
      3 / 10 < |r| ∧ s = |r| ∧ v = r ∧
      dir = (if 0 < r then "positive" else "negative") := by
  rw [mem_find_connections] at hmem
  unfold discoveredConnections at hmem
  rcases List.mem_append.mp hmem with hcorr | hcat
  · obtain ⟨i, j, hij, hpair⟩ := mem_corrConnections.mp hcorr
    obtain ⟨c1, c2, h1, h2, hopt⟩ := corrConnPair_eq_some.mp hpair
    obtain ⟨r, hr, hth, hconn⟩ := corrConnOpt_eq_some.mp hopt
    obtain ⟨ha, hb, hs, hdir, hv⟩ := Connection.correlation.inj hconn
    exact ⟨i, j, c1, c2, r, hij, h1, h2, ha, hb, hr, hth, hs, hv, hdir⟩
  · obtain ⟨c, _, n, _, hopt⟩ := mem_catConnections.mp hcat
    obtain ⟨_, ρ, _, _, hconn⟩ := catConnOpt_eq_some.mp hopt
    cases hconn

/-- Every categorical-influence record in the output comes from a
(categorical, numeric) column pair whose guard and variance-ratio threshold
hold, and its fields are determined by that pair. -/
theorem categorical_mem_elim {d : Dataset} {a b : String} {s : ℝ}
    {det : List (String × GroupStat)}
    (hmem : Connection.categorical a b s det ∈ find_connections d) :
    ∃ c n ρ, c ∈ d.categoricals ∧ n ∈ d.numerics ∧ a = c.name ∧ b = n.name ∧
      1 < (groupLabels c.values).length ∧ ratioOpt c.values n.values = some ρ ∧
      2 < ρ ∧ s = min (ρ / 10) 1 ∧ det = groupStatsOf c.values n.values := by
  rw [mem_find_connections] at hmem
  unfold discoveredConnections at hmem
  rcases List.mem_append.mp hmem with hcorr | hcat
  · obtain ⟨i, j, hij, hpair⟩ := mem_corrConnections.mp hcorr
    obtain ⟨c1, c2, h1, h2, hopt⟩ := corrConnPair_eq_some.mp hpair
    obtain ⟨r, hr, hth, hconn⟩ := corrConnOpt_eq_some.mp hopt
    cases hconn
  · obtain ⟨c, hc, n, hn, hopt⟩ := mem_catConnections.mp hcat
    obtain ⟨hguard, ρ, hρ, hth, hconn⟩ := catConnOpt_eq_some.mp hopt
    obtain ⟨ha, hb, hs, hdet⟩ := Connection.categorical.inj hconn
    exact ⟨c, n, ρ, hc, hn, ha, hb, hguard, hρ, hth, hs, hdet⟩

/-! ### Claim theorems -/

/-- C2: for every dataset, the list returned by `find_connections` is sorted
by strength in non-increasing order (pairwise, hence for all adjacent
entries), and it is a stable reordering of the discovery-ordered list — the
index-annotated sorted list is a permutation of the enumerated discovery
list in which equal-strength entries keep increasing discovery indices —
where the discovery order is all correlations in numeric-pair order followed
by the categorical-influence connections in categorical-by-numeric order. -/
theorem connections_ranking_sorted_stable (d : Dataset) :
    (find_connections d).Pairwise
      (fun c1 c2 => Connection.strength c2 ≤ Connection.strength c1) ∧
    (ranked d).Pairwise
      (fun a b => Connection.strength a.2 = Connection.strength b.2 → a.1 ≤ b.1) ∧
    (ranked d).Perm (discoveredConnections d).enum ∧
    find_connections d = (ranked d).map Prod.snd ∧
    discoveredConnections d = corrConnections d ++ catConnections d := by
  refine ⟨?_, ?_, ranked_perm d, rfl, rfl⟩
  · have hs : (ranked d).Pairwise rankLE := ranked_sorted d
    unfold find_connections
    rw [List.pairwise_map]
    refine hs.imp ?_
    intro a b hab
    rcases hab with h | ⟨h, _⟩
    · exact le_of_lt h
    · exact le_of_eq h.symm
  · have hs : (ranked d).Pairwise rankLE := ranked_sorted d
    refine hs.imp ?_
    intro a b hab heq
    rcases hab with h | ⟨_, hi⟩
    · rw [heq] at h
      exact absurd h (lt_irrefl _)
    · exact hi

/-- witness for C2: the ranking invariants instantiated at a concrete
dataset. -/
theorem connections_ranking_sorted_stable_witness :
    (find_connections corrExample).Pairwise
      (fun c1 c2 => Connection.strength c2 ≤ Connection.strength c1) ∧
    (ranked corrExample).Pairwise
      (fun a b => Connection.strength a.2 = Connection.strength b.2 → a.1 ≤ b.1) ∧
    (ranked corrExample).Perm (discoveredConnections corrExample).enum ∧
    find_connections corrExample = (ranked corrExample).map Prod.snd ∧
    discoveredConnections corrExample =
      corrConnections corrExample ++ catConnections corrExample :=
  connections_ranking_sorted_stable corrExample

/-- C6: `get_outliers` fails — with the invalid-column error — exactly when
the requested column is not a numeric column of the dataset (in particular
whenever it does not exist at all), and it returns a well-formed `ok`
result exactly when the column is numeric; no other failure is possible. -/
theorem get_outliers_failure_characterization (d : Dataset) (col m : String) :
    (get_outliers d col m =
        .error (.invalidColumn ("Column '" ++ col ++ "' is not numeric")) ↔
      (col ∉ numericNames d ∨ col ∉ allNames d)) ∧
    ((∃ l, get_outliers d col m = .ok l) ↔ col ∈ numericNames d) := by
  by_cases h : col ∈ numericNames d
  · have hall : col ∈ allNames d := by
      unfold allNames
      unfold numericNames at h
      exact List.mem_append_left _ h
    have hok : ∃ l, get_outliers d col m = .ok l := by
      by_cases h1 : m = "iqr"
      · exact ⟨_, h1 ▸ get_outliers_iqr h⟩
      · by_cases h2 : m = "zscore"
        · exact ⟨_, h2 ▸ get_outliers_zscore h⟩
        · exact ⟨_, get_outliers_unknown h h1 h2⟩
    obtain ⟨l, hl⟩ := hok
    refine ⟨⟨fun habs => ?_, fun hc => ?_⟩, fun _ => h, fun _ => ⟨l, hl⟩⟩
    · rw [hl] at habs
      cases habs
    · rcases hc with hc | hc
      · exact absurd h hc
      · exact absurd hall hc
  · refine ⟨⟨fun _ => Or.inl h, fun _ => get_outliers_not_numeric h⟩,
      fun hex => ?_, fun hc => absurd hc h⟩
    obtain ⟨l, hl⟩ := hex
    rw [get_outliers_not_numeric h] at hl
    cases hl

/-- witness for C6: the failure characterisation instantiated at a column
name that is not in the dataset. -/
theorem get_outliers_failure_characterization_witness :
    (get_outliers iqrExample "zzz" "iqr" =
        .error (.invalidColumn ("Column '" ++ "zzz" ++ "' is not numeric")) ↔
      ("zzz" ∉ numericNames iqrExample ∨ "zzz" ∉ allNames iqrExample)) ∧
    ((∃ l, get_outliers iqrExample "zzz" "iqr" = .ok l) ↔
      "zzz" ∈ numericNames iqrExample) :=
  get_outliers_failure_characterization iqrExample "zzz" "iqr"

/-- C7: for a numeric column whose non-missing values have standard
deviation `0`, the z-score method returns an empty outlier list instead of
failing on the division by zero; in general `get_outliers` with `zscore`
returns exactly the non-missing values whose absolute z-score
`abs((x - mean) / std)` is strictly greater than 3. -/
theorem zscore_outlier_spec (d : Dataset) (col : String) (hcol : col ∈ numericNames d) :
    (stdR (numericValues d col) = 0 → get_outliers d col "zscore" = .ok []) ∧
    get_outliers d col "zscore" = .ok (zscoreOutliers (numericValues d col)) ∧
    (∀ x, x ∈ zscoreOutliers (numericValues d col) ↔
      x ∈ numericValues d col ∧
        3 < |((x : ℝ) - (meanQ (numericValues d col) : ℝ)) /
          stdR (numericValues d col)|) := by
  refine ⟨?_, get_outliers_zscore hcol, ?_⟩
  · intro hstd
    rw [get_outliers_zscore hcol]
    have hnil : zscoreOutliers (numericValues d col) = [] := by
      unfold zscoreOutliers
      refine List.filter_eq_nil_iff.mpr ?_
      intro a _
      rw [hstd]
      simp
    rw [hnil]
  · intro x
    unfold zscoreOutliers
    rw [List.mem_filter, decide_eq_true_eq]

/-- witness for C7 at the scenario column `[5, 5, 5, 5]`: the standard
deviation is `0` and the z-score outlier list is empty. -/
theorem zscore_outlier_spec_witness :
    ("b" ∈ numericNames constExample) ∧
    stdR (numericValues constExample "b") = 0 ∧
    get_outliers constExample "b" "zscore" = .ok [] := by
  have hstd : stdR (numericValues constExample "b") = 0 := by
    have hv : sampleVarQ (numericValues constExample "b") = 0 := by
      with_unfolding_all rfl
    unfold stdR
    rw [hv]
    simp
  exact ⟨by decide, hstd, (zscore_outlier_spec constExample "b" (by decide)).1 hstd⟩

/-- C8: `get_outliers` with the `iqr` method returns exactly the non-missing
values strictly outside `[Q1 - 1.5*IQR, Q3 + 1.5*IQR]` — the quartiles
computed by the linear-interpolation quantile estimator — in original
relative order (the result is a sublist of the non-missing values), and the
scenario column `[1, 2, 3, 4, 100]` yields exactly `[100]`. -/
theorem iqr_outlier_spec :
    (∀ (d : Dataset) (col : String), col ∈ numericNames d →
      get_outliers d col "iqr" = .ok (iqrOutliers (numericValues d col))) ∧
    (∀ (l : List ℚ) (x : ℚ), x ∈ iqrOutliers l ↔ x ∈ l ∧
      (x < quantile l (1 / 4) - 3 / 2 * (quantile l (3 / 4) - quantile l (1 / 4)) ∨
       quantile l (3 / 4) + 3 / 2 * (quantile l (3 / 4) - quantile l (1 / 4)) < x)) ∧
    (∀ l : List ℚ, (iqrOutliers l).Sublist l) ∧
    get_outliers iqrExample "a" "iqr" = .ok [100] := by
  refine ⟨fun d col h => get_outliers_iqr h, ?_, fun l => List.filter_sublist l, ?_⟩
  · intro l x
    unfold iqrOutliers
    rw [List.mem_filter, decide_eq_true_eq]
  · rw [get_outliers_iqr (by decide)]
    rw [show numericValues iqrExample "a" = [1, 2, 3, 4, 100] from by with_unfolding_all rfl]
    rw [show iqrOutliers [1, 2, 3, 4, 100] = [100] from by with_unfolding_all rfl]

/-- witness for C8: the general `iqr` dispatch applied to the concrete
scenario dataset. -/
theorem iqr_outlier_spec_witness :
    ("a" ∈ numericNames iqrExample) ∧
    get_outliers iqrExample "a" "iqr" = .ok (iqrOutliers (numericValues iqrExample "a")) :=
  ⟨by decide, iqr_outlier_spec.1 iqrExample "a" (by decide)⟩

/-- C9: for a numeric column and any method selector other than `iqr` and
`zscore`, `get_outliers` returns an empty result rather than failing. -/
theorem unknown_method_returns_empty (d : Dataset) (col m : String)
    (hcol : col ∈ numericNames d) (h1 : m ≠ "iqr") (h2 : m ≠ "zscore") :
    get_outliers d col m = .ok [] :=
  get_outliers_unknown hcol h1 h2

/-- witness for C9 with the unrecognized method string `"median"`. -/
theorem unknown_method_returns_empty_witness :
    ("a" ∈ numericNames iqrExample) ∧ "median" ≠ "iqr" ∧ "median" ≠ "zscore" ∧
    get_outliers iqrExample "a" "median" = .ok [] :=
  ⟨by decide, by decide, by decide,
    unknown_method_returns_empty iqrExample "a" "median" (by decide) (by decide) (by decide)⟩

/-- C1: for every pair of distinct numeric columns — positions `i < j` in
the numeric column order, with column names unambiguous — a correlation
record for the pair appears in `find_connections` iff the Pearson
coefficient over the jointly non-missing rows is defined with absolute value
strictly greater than `0.3`; and every emitted record for the pair carries
`strength = abs(value)`, `value` the coefficient itself, and direction
`positive` when the value is positive, else `negative`. -/
theorem correlation_threshold_iff (d : Dataset)
    (hnd : (d.numerics.map NumericColumn.name).Nodup)
    (i j : ℕ) (hij : i < j) (c1 c2 : NumericColumn)
    (h1 : d.numerics.get? i = some c1) (h2 : d.numerics.get? j = some c2) :
    ((∃ s dir v, Connection.correlation c1.name c2.name s dir v ∈ find_connections d) ↔
      ∃ r, pearsonOpt c1.values c2.values = some r ∧ 3 / 10 < |r|) ∧
    (∀ s dir v, Connection.correlation c1.name c2.name s dir v ∈ find_connections d →
      ∃ r, pearsonOpt c1.values c2.values = some r ∧ s = |r| ∧ v = r ∧
        dir = (if 0 < r then "positive" else "negative")) := by
  have elim : ∀ s dir v,
      Connection.correlation c1.name c2.name s dir v ∈ find_connections d →
      ∃ r, pearsonOpt c1.values c2.values = some r ∧ 3 / 10 < |r| ∧ s = |r| ∧ v = r ∧
        dir = (if 0 < r then "positive" else "negative") := by
    intro s dir v hmem
    obtain ⟨i', j', c1', c2', r, hij', h1', h2', ha, hb, hr, hth, hs, hv, hdir⟩ :=
      correlation_mem_elim hmem
    obtain rfl : i' = i := get?_name_inj hnd h1' h1 ha.symm
    obtain rfl : j' = j := get?_name_inj hnd h2' h2 hb.symm
    obtain rfl : c1' = c1 := by
      rw [h1] at h1'
      exact ((Option.some.injEq _ _).mp h1').symm
    obtain rfl : c2' = c2 := by
      rw [h2] at h2'
      exact ((Option.some.injEq _ _).mp h2').symm
    exact ⟨r, hr, hth, hs, hv, hdir⟩
  constructor
  · constructor
    · rintro ⟨s, dir, v, hmem⟩
      obtain ⟨r, hr, hth, _⟩ := elim s dir v hmem
      exact ⟨r, hr, hth⟩
    · rintro ⟨r, hr, hth⟩
      refine ⟨|r|, if 0 < r then "positive" else "negative", r, ?_⟩
      rw [mem_find_connections]
      unfold discoveredConnections
      refine List.mem_append.mpr (Or.inl ?_)
      exact mem_corrConnections.mpr ⟨i, j, hij,
        corrConnPair_eq_some.mpr ⟨c1, c2, h1, h2,
          corrConnOpt_eq_some.mpr ⟨r, hr, hth, rfl⟩⟩⟩
  · intro s dir v hmem
    obtain ⟨r, hr, _, hs, hv, hdir⟩ := elim s dir v hmem
    exact ⟨r, hr, hs, hv, hdir⟩

/-- witness for C1 at the perfectly correlated pair `x`, `y = 2x`. -/
theorem correlation_threshold_iff_witness :
    (corrExample.numerics.map NumericColumn.name).Nodup ∧ 0 < 1 ∧
    corrExample.numerics.get? 0 = some xColumn ∧
    corrExample.numerics.get? 1 = some yColumn ∧
    (((∃ s dir v,
        Connection.correlation xColumn.name yColumn.name s dir v ∈
          find_connections corrExample) ↔
      ∃ r, pearsonOpt xColumn.values yColumn.values = some r ∧ 3 / 10 < |r|) ∧
    (∀ s dir v, Connection.correlation xColumn.name yColumn.name s dir v ∈
        find_connections corrExample →
      ∃ r, pearsonOpt xColumn.values yColumn.values = some r ∧ s = |r| ∧ v = r ∧
        dir = (if 0 < r then "positive" else "negative"))) :=
  ⟨by decide, by decide, by decide, by decide,
    correlation_threshold_iff corrExample (by decide) 0 1 (by decide)
      xColumn yColumn (by decide) (by decide)⟩

/-- C3: a pair of numeric columns in which either column has zero variance
over the jointly non-missing rows is never emitted as a correlation
connection; moreover every correlation record that is emitted carries a
defined (non-NaN) Pearson coefficient as its value, with strength its
absolute value. -/
theorem zero_variance_pair_excluded (d : Dataset)
    (hnd : (d.numerics.map NumericColumn.name).Nodup)
    (i j : ℕ) (hij : i < j) (c1 c2 : NumericColumn)
    (h1 : d.numerics.get? i = some c1) (h2 : d.numerics.get? j = some c2)
    (hzero : ssQ ((nonMissingPairs c1.values c2.values).map Prod.fst) = 0 ∨
             ssQ ((nonMissingPairs c1.values c2.values).map Prod.snd) = 0) :
    (∀ s dir v, Connection.correlation c1.name c2.name s dir v ∉ find_connections d) ∧
    (∀ a b s dir v, Connection.correlation a b s dir v ∈ find_connections d →
      ∃ i' j' c1' c2' r, i' < j' ∧ d.numerics.get? i' = some c1' ∧
        d.numerics.get? j' = some c2' ∧ a = c1'.name ∧ b = c2'.name ∧
        pearsonOpt c1'.values c2'.values = some r ∧ s = |r| ∧ v = r) := by
  constructor
  · intro s dir v hmem
    obtain ⟨i', j', c1', c2', r, hij', h1', h2', ha, hb, hr, _, _, _, _⟩ :=
      correlation_mem_elim hmem
    obtain rfl : i' = i := get?_name_inj hnd h1' h1 ha.symm
    obtain rfl : j' = j := get?_name_inj hnd h2' h2 hb.symm
    obtain rfl : c1' = c1 := by
      rw [h1] at h1'
      exact ((Option.some.injEq _ _).mp h1').symm
    obtain rfl : c2' = c2 := by
      rw [h2] at h2'
      exact ((Option.some.injEq _ _).mp h2').symm
    rw [pearsonOpt_eq_none_of hzero] at hr
    cases hr
  · intro a b s dir v hmem
    obtain ⟨i', j', c1', c2', r, hij', h1', h2', ha, hb, hr, _, hs, hv, _⟩ :=
      correlation_mem_elim hmem
    exact ⟨i', j', c1', c2', r, hij', h1', h2', ha, hb, hr, hs, hv⟩

/-- witness for C3 at the constant column `u` paired with the varying `v`. -/
theorem zero_variance_pair_excluded_witness :
    (degenerateExample.numerics.map NumericColumn.name).Nodup ∧ 0 < 1 ∧
    degenerateExample.numerics.get? 0 = some uColumn ∧
    degenerateExample.numerics.get? 1 = some vColumn ∧
    (ssQ ((nonMissingPairs uColumn.values vColumn.values).map Prod.fst) = 0 ∨
     ssQ ((nonMissingPairs uColumn.values vColumn.values).map Prod.snd) = 0) ∧
    ((∀ s dir v, Connection.correlation uColumn.name vColumn.name s dir v ∉
        find_connections degenerateExample) ∧
    (∀ a b s dir v, Connection.correlation a b s dir v ∈
        find_connections degenerateExample →
      ∃ i' j' c1' c2' r, i' < j' ∧ degenerateExample.numerics.get? i' = some c1' ∧
        degenerateExample.numerics.get? j' = some c2' ∧ a = c1'.name ∧ b = c2'.name ∧
        pearsonOpt c1'.values c2'.values = some r ∧ s = |r| ∧ v = r)) := by
  have hz : ssQ ((nonMissingPairs uColumn.values vColumn.values).map Prod.fst) = 0 := by
    with_unfolding_all rfl
  exact ⟨by decide, by decide, by decide, by decide, Or.inl hz,
    zero_variance_pair_excluded degenerateExample (by decide) 0 1 (by decide)
      uColumn vColumn (by decide) (by decide) (Or.inl hz)⟩

/-- C4: for every (categorical, numeric) column pair of the dataset (with
unambiguous column names), a categorical-influence record for the pair
appears in `find_connections` iff the variance ratio
`max(groupStd) / (min(groupStd) + 1e-10)` over the defined per-group sample
standard deviations is strictly greater than 2, and every emitted record
carries `strength = min(ratio / 10, 1)`. -/
theorem categorical_influence_iff (d : Dataset)
    (hndc : (d.categoricals.map CategoricalColumn.name).Nodup)
    (hndn : (d.numerics.map NumericColumn.name).Nodup)
    (c : CategoricalColumn) (n : NumericColumn)
    (hc : c ∈ d.categoricals) (hn : n ∈ d.numerics) :
    ((∃ s det, Connection.categorical c.name n.name s det ∈ find_connections d) ↔
      ∃ ρ, ratioOpt c.values n.values = some ρ ∧ 2 < ρ) ∧
    (∀ s det, Connection.categorical c.name n.name s det ∈ find_connections d →
      ∃ ρ, ratioOpt c.values n.values = some ρ ∧ 2 < ρ ∧ s = min (ρ / 10) 1) := by
  have elim : ∀ s det,
      Connection.categorical c.name n.name s det ∈ find_connections d →
      ∃ ρ, ratioOpt c.values n.values = some ρ ∧ 2 < ρ ∧ s = min (ρ / 10) 1 := by
    intro s det hmem
    obtain ⟨c', n', ρ, hc', hn', ha, hb, hguard, hρ, hth, hs, _⟩ :=
      categorical_mem_elim hmem
    obtain rfl : c' = c := List.inj_on_of_nodup_map hndc hc' hc ha.symm
    obtain rfl : n' = n := List.inj_on_of_nodup_map hndn hn' hn hb.symm
    exact ⟨ρ, hρ, hth, hs⟩
  refine ⟨⟨?_, ?_⟩, elim⟩
  · rintro ⟨s, det, hmem⟩
    obtain ⟨ρ, hρ, hth, _⟩ := elim s det hmem
    exact ⟨ρ, hρ, hth⟩
  · rintro ⟨ρ, hρ, hth⟩
    refine ⟨min (ρ / 10) 1, groupStatsOf c.values n.values, ?_⟩
    rw [mem_find_connections]
    unfold discoveredConnections
    refine List.mem_append.mpr (Or.inr ?_)
    exact mem_catConnections.mpr ⟨c, hc, n, hn,
      catConnOpt_eq_some.mpr ⟨one_lt_labels_of_ratio hρ hth, ρ, hρ, hth, rfl⟩⟩

/-- witness for C4 at the two-group pair with one constant and one
spread-out group. -/
theorem categorical_influence_iff_witness :
    (catExample.categoricals.map CategoricalColumn.name).Nodup ∧
    (catExample.numerics.map NumericColumn.name).Nodup ∧
    gColumn ∈ catExample.categoricals ∧ nColumn ∈ catExample.numerics ∧
    (((∃ s det, Connection.categorical gColumn.name nColumn.name s det ∈
        find_connections catExample) ↔
      ∃ ρ, ratioOpt gColumn.values nColumn.values = some ρ ∧ 2 < ρ) ∧
    (∀ s det, Connection.categorical gColumn.name nColumn.name s det ∈
        find_connections catExample →
      ∃ ρ, ratioOpt gColumn.values nColumn.values = some ρ ∧ 2 < ρ ∧
        s = min (ρ / 10) 1)) :=
  ⟨by decide, by decide, by decide, by decide,
    categorical_influence_iff catExample (by decide) (by decide)
      gColumn nColumn (by decide) (by decide)⟩

/-- C5: a (categorical, numeric) pair with fewer than two category groups
containing at least one non-missing numeric value never contributes a
categorical-influence connection to `find_connections`. -/
theorem categorical_two_groups_required (d : Dataset)
    (hndc : (d.categoricals.map CategoricalColumn.name).Nodup)
    (hndn : (d.numerics.map NumericColumn.name).Nodup)
    (c : CategoricalColumn) (n : NumericColumn)
    (hc : c ∈ d.categoricals) (hn : n ∈ d.numerics)
    (hfew : ((groupLabels c.values).filter
        (fun lab => decide (1 ≤ (groupVals c.values n.values lab).length))).length < 2) :
    ∀ s det, Connection.categorical c.name n.name s det ∉ find_connections d := by
  intro s det hmem
  obtain ⟨c', n', ρ, hc', hn', ha, hb, _, hρ, hth, _, _⟩ := categorical_mem_elim hmem
  obtain rfl : c = c' := List.inj_on_of_nodup_map hndc hc hc' ha
  obtain rfl : n = n' := List.inj_on_of_nodup_map hndn hn hn' hb
  have h2v := two_le_validStds hρ hth
  have heq := validStds_length_eq (c.values) (n.values)
  have hle := filter_two_le_length_le (c.values) (n.values)
  omega

/-- witness for C5 at the pair whose second category group has no
numeric value. -/
theorem categorical_two_groups_required_witness :
    (sparseExample.categoricals.map CategoricalColumn.name).Nodup ∧
    (sparseExample.numerics.map NumericColumn.name).Nodup ∧
    qColumn ∈ sparseExample.categoricals ∧ wColumn ∈ sparseExample.numerics ∧
    ((groupLabels qColumn.values).filter
        (fun lab => decide (1 ≤ (groupVals qColumn.values wColumn.values lab).length))).length
      < 2 ∧
    (∀ s det, Connection.categorical qColumn.name wColumn.name s det ∉
      find_connections sparseExample) :=
  ⟨by decide, by decide, by decide, by decide, by with_unfolding_all decide,
    categorical_two_groups_required sparseExample (by decide) (by decide)
      qColumn wColumn (by decide) (by decide) (by with_unfolding_all decide)⟩

/-- C10: when at most one category group has two or more non-missing numeric
values, every group standard deviation but at most one is the source's NaN
and is skipped by the `max`/`min` aggregation, so the variance ratio is
undefined or at most 1, and the pair contributes no categorical-influence
connection. -/
theorem singleton_groups_no_influence (c : CategoricalColumn) (n : NumericColumn)
    (hfew : ((groupLabels c.values).filter
        (fun lab => decide (2 ≤ (groupVals c.values n.values lab).length))).length ≤ 1) :
    (ratioOpt c.values n.values = none ∨
      ∃ ρ, ratioOpt c.values n.values = some ρ ∧ ρ ≤ 1) ∧
    catConnOpt c n = none := by
  have hlen : (validStds c.values n.values).length ≤ 1 := by
    rw [validStds_length_eq]
    exact hfew
  have hr := @ratioOpt_of_subsingleton (c.values) (n.values) hlen
  constructor
  · rcases hr with h | ⟨ρ, hρ, hlt⟩
    · exact Or.inl h
    · exact Or.inr ⟨ρ, hρ, le_of_lt hlt⟩
  · rcases hcat : catConnOpt c n with _ | conn
    · rfl
    · exfalso
      obtain ⟨_, ρ, hρ, hth, _⟩ := catConnOpt_eq_some.mp hcat
      rcases hr with h | ⟨ρ', hρ', hlt⟩
      · rw [h] at hρ
        cases hρ
      · rw [hρ'] at hρ
        obtain rfl := (Option.some.injEq _ _).mp hρ
        linarith

/-- witness for C10 at the pair whose two groups are both singletons. -/
theorem singleton_groups_no_influence_witness :
    ((groupLabels pColumn.values).filter
        (fun lab => decide (2 ≤ (groupVals pColumn.values mColumn.values lab).length))).length
      ≤ 1 ∧
    ((ratioOpt pColumn.values mColumn.values = none ∨
      ∃ ρ, ratioOpt pColumn.values mColumn.values = some ρ ∧ ρ ≤ 1) ∧
    catConnOpt pColumn mColumn = none) :=
  ⟨by with_unfolding_all decide,
    singleton_groups_no_influence pColumn mColumn (by with_unfolding_all decide)⟩

end AutoCSV
